import Mathlib

/-
Shallow embedding of the request-orchestration core of
src/opendota_server/server.py (OpenDota MCP server): the sliding-window
rate limiter, the TTL response cache with its cleanup sweep, the error
classification branches of the request dispatcher, and the dispatcher
itself.

Modelling conventions:
* Instants (Python time.time values) are rationals.
* The Python dict api_cache is an association list with unique keys;
  dict assignment is modelled as prepend-after-removing-the-key, which
  has the same lookup semantics.
* The network is an oracle input: the dispatcher receives the outcome
  of the single HTTP GET it would perform (either parsed data, or the
  failure the try block would catch) together with the elapsed time of
  the call, and is otherwise a pure state-transition function.
* asyncio.sleep is modelled by advancing the clock; the sequential
  model executes one call at a time.
-/

namespace OpenDota

/-- MAX_REQUESTS_PER_MINUTE = 60 (server.py line 47). -/
def MAX_REQUESTS_PER_MINUTE : ℕ := 60

/-- CACHE_TTL = 300 seconds (server.py line 131). -/
def CACHE_TTL : ℚ := 300

/-- Python min over a nonempty list of instants (min(request_timestamps),
server.py line 106); returns 0 on the empty list, which the code never
queries. -/
def listMin : List ℚ → ℚ
  | [] => 0
  | [t] => t
  | t :: rest => min t (listMin rest)

/-- apply_rate_limit (server.py lines 95-118), sequential model. Input:
the current instant and the shared request_timestamps log. The function
drops timestamps older than 60 seconds, and if at least
MAX_REQUESTS_PER_MINUTE remain it computes
wait = 60 - (now - oldest) + 0.1 and sleeps for wait when wait is
positive (modelled by advancing the clock). Finally the current
time.time() value (taken after the sleep, line 118) is appended.
Returns (instant after the call, new log). -/
def apply_rate_limit (now : ℚ) (log : List ℚ) : ℚ × List ℚ :=
  let pruned := log.filter (fun t => now - t < 60)
  if MAX_REQUESTS_PER_MINUTE ≤ pruned.length then
    let oldest := listMin pruned
    let wait := 60 - (now - oldest) + 1/10
    let now1 := if 0 < wait then now + wait else now
    (now1, pruned ++ [now1])
  else
    (now, pruned ++ [now])

/-- Comparison used by Python sorted(params.items()): lexicographic
comparison of (key, value) string pairs. -/
def paramLE (p q : String × String) : Prop :=
  p.1 < q.1 ∨ (p.1 = q.1 ∧ p.2 ≤ q.2)

instance : DecidableRel paramLE := fun _ _ =>
  inferInstanceAs (Decidable (_ ∨ _))

instance : IsTotal (String × String) paramLE := by
  constructor
  intro p q
  rcases lt_trichotomy p.1 q.1 with h | h | h
  · exact Or.inl (Or.inl h)
  · rcases le_total p.2 q.2 with h2 | h2
    · exact Or.inl (Or.inr ⟨h, h2⟩)
    · exact Or.inr (Or.inr ⟨h.symm, h2⟩)
  · exact Or.inr (Or.inl h)

instance : IsTrans (String × String) paramLE := by
  constructor
  rintro p q r (h1 | ⟨h1, h1v⟩) (h2 | ⟨h2, h2v⟩)
  · exact Or.inl (h1.trans h2)
  · exact Or.inl (h2 ▸ h1)
  · exact Or.inl (h1 ▸ h2)
  · exact Or.inr ⟨h1.trans h2, h1v.trans h2v⟩

instance : IsAntisymm (String × String) paramLE := by
  constructor
  rintro ⟨pk, pv⟩ ⟨qk, qv⟩ (h1 | ⟨h1, h1v⟩) (h2 | ⟨h2, h2v⟩)
  · exact absurd (h1.trans h2) (lt_irrefl _)
  · exact absurd h1 (h2 ▸ lt_irrefl _)
  · exact absurd h2 (h1 ▸ lt_irrefl _)
  · simp only [Prod.mk.injEq]
    exact ⟨h1, le_antisymm h1v h2v⟩

/-- get_cache_key (server.py lines 121-126): for nonempty params the key
is endpoint ++ "?" ++ the "&"-joined "k=v" fragments of the parameters
in Python sorted order; for empty params the key is the endpoint alone.
The same construction appears inline in make_opendota_request
(lines 146-150). -/
def get_cache_key (endpoint : String) (params : List (String × String)) : String :=
  match params with
  | [] => endpoint
  | _ =>
    endpoint ++ "?" ++
      String.intercalate "&"
        ((params.insertionSort paramLE).map (fun p => p.1 ++ "=" ++ p.2))

/-- The error taxonomy of the specification. The code itself returns only
message strings; each constructor names one return branch of the except
handlers of make_opendota_request, identified by the message the spec
describes for that kind. The final catch-all branch (except Exception,
lines 193-195) is the branch that receives anything unanticipated, which
the taxonomy calls Unknown: its message wraps the original failure
description. -/
inductive ErrorKind where
  | RateLimited
  | NotFound
  | UpstreamServerError
  | TransportError
  | Unknown
deriving DecidableEq, Repr

/-- A classified error: taxonomy kind plus the exact message string the
code places in the returned error dict. -/
structure ClassifiedError where
  kind : ErrorKind
  message : String
deriving DecidableEq, Repr

/-- The failure the try block of make_opendota_request can catch: either
an httpx.HTTPStatusError carrying a status code and response text, or
any other exception (connection error, timeout, JSON parse error, or an
unanticipated internal fault) carrying its string description. -/
inductive Failure where
  | httpStatus (status : ℕ) (text : String)
  | exc (msg : String)
deriving DecidableEq, Repr

/-- The except branches of make_opendota_request (server.py lines
177-195): status 429, status 404, status at least 500, any other status
error, and the catch-all for every other exception. The message strings
are the exact strings of the code; the kind component tags which branch
ran, named per the taxonomy. -/
def classify : Failure → ClassifiedError
  | .httpStatus s t =>
    if s = 429 then
      ⟨.RateLimited, "Rate limit exceeded. Consider using an API key for more requests."⟩
    else if s = 404 then
      ⟨.NotFound, "Not found. The requested resource doesn\x27t exist."⟩
    else if 500 ≤ s then
      ⟨.UpstreamServerError, "OpenDota API server error. Please try again later."⟩
    else
      ⟨.TransportError, "HTTP error " ++ toString s ++ ": " ++ t⟩
  | .exc m => ⟨.Unknown, "Unexpected error: " ++ m⟩

/-- The shared mutable state of the module: the rate limiter timestamp
log (request_timestamps) and the response cache (api_cache), a map from
cache key to (store instant, payload). -/
structure ServerState (α : Type) where
  request_timestamps : List ℚ
  api_cache : List (String × ℚ × α)
deriving DecidableEq, Repr

/-- The cache read of make_opendota_request (lines 152-158): the entry
for the key, returned only when its age is strictly below CACHE_TTL;
a stale or missing entry reads as none. -/
def cache_get {α : Type} (now : ℚ) (cache : List (String × ℚ × α))
    (key : String) : Option α :=
  match cache.lookup key with
  | some (ts, data) => if now - ts < CACHE_TTL then some data else none
  | none => none

/-- The cache write of make_opendota_request (line 174): Python dict
assignment api_cache[cache_key] = (time.time(), data), modelled with
lookup-equivalent association-list update. -/
def cache_put {α : Type} (key : String) (ts : ℚ) (data : α)
    (cache : List (String × ℚ × α)) : List (String × ℚ × α) :=
  (key, ts, data) :: cache.filter (fun e => e.1 ≠ key)

/-- Python dict update (lines 142-144): request_params starts as a copy
of API_PARAMS and is updated with params, so params wins on key
collisions. -/
def updateDict (base upd : List (String × String)) : List (String × String) :=
  base.filter (fun p => (upd.lookup p.1).isNone) ++ upd

/-- The observable outcome of one make_opendota_request call: the value
returned (parsed payload, or the error dict modelled as a classified
error), the instant at which the call returns, and the shared state
afterwards. -/
structure FetchOutcome (α : Type) where
  result : Except ClassifiedError α
  endTime : ℚ
  state : ServerState α
deriving Repr

/-- make_opendota_request (server.py lines 134-195), sequential model.
Order as in the code: apply_rate_limit runs first (line 139); then
request_params is built from API_PARAMS updated with params; then the
cache key; then the cache is consulted at the post-limiter instant
(time.time() on line 156); only on a miss does the network oracle get
consulted. On success the payload is cached at the response instant
(line 174); on failure the caught exception is classified and returned
with the cache untouched. -/
def make_opendota_request {α : Type} (endpoint : String)
    (params apiParams : List (String × String))
    (net : Except Failure α) (netElapsed : ℚ)
    (now : ℚ) (st : ServerState α) : FetchOutcome α :=
  let rl := apply_rate_limit now st.request_timestamps
  let now1 := rl.1
  let log1 := rl.2
  let request_params := updateDict apiParams params
  let cache_key := get_cache_key endpoint request_params
  match cache_get now1 st.api_cache cache_key with
  | some data => ⟨.ok data, now1, ⟨log1, st.api_cache⟩⟩
  | none =>
    match net with
    | .ok data =>
      let now2 := now1 + netElapsed
      ⟨.ok data, now2, ⟨log1, cache_put cache_key now2 data st.api_cache⟩⟩
    | .error f =>
      ⟨.error (classify f), now1 + netElapsed, ⟨log1, st.api_cache⟩⟩

/-- cleanup_cache (server.py lines 1241-1255): collects the keys of the
entries whose age is at least CACHE_TTL, deletes those keys from the
dict, and reports how many it removed. Returns (cache after, count
removed). -/
def cleanup_cache {α : Type} (now : ℚ) (cache : List (String × ℚ × α)) :
    List (String × ℚ × α) × ℕ :=
  let expired_keys := (cache.filter (fun e => CACHE_TTL ≤ now - e.2.1)).map Prod.fst
  (cache.filter (fun e => e.1 ∉ expired_keys), expired_keys.length)

/-- Number of log entries inside the trailing 60-second window at a
given instant. -/
def countInWindow (now : ℚ) (log : List ℚ) : ℕ :=
  log.countP (fun t => decide (now - t < 60))

/-- A sequence of rate-limited calls, one after another: starting from
(clock, log), each delay d moves the clock forward by d and then runs
apply_rate_limit. Returns the final (clock, log). -/
def run_rate_limited_calls (s : ℚ × List ℚ) (delays : List ℚ) : ℚ × List ℚ :=
  delays.foldl (fun acc d => apply_rate_limit (acc.1 + d) acc.2) s

/-- The Python min of a nonempty list is one of its elements. -/
theorem listMin_mem : ∀ (l : List ℚ), l ≠ [] → listMin l ∈ l
  | [], h => absurd rfl h
  | [t], _ => by simp [listMin]
  | t :: u :: rest, _ => by
    simp only [listMin]
    rcases min_choice t (listMin (u :: rest)) with h | h
    · rw [h]
      exact List.mem_cons_self _ _
    · rw [h]
      exact List.mem_cons_of_mem _ (listMin_mem (u :: rest) (by simp))

/-- A key absent from the key column of an association list has no
lookup result. -/
theorem lookup_eq_none_of_not_mem_keys {β : Type} (key : String)
    (l : List (String × β)) (h : key ∉ l.map Prod.fst) : l.lookup key = none := by
  induction l with
  | nil => rfl
  | cons e rest ih =>
    rcases e with ⟨k, v⟩
    simp only [List.map_cons, List.mem_cons] at h
    push_neg at h
    obtain ⟨h1, h2⟩ := h
    simp only [List.lookup]
    rw [show (key == k) = false from beq_eq_false_iff_ne.mpr h1]
    exact ih h2

/-- A successful association-list lookup exhibits a member. -/
theorem mem_of_lookup_eq_some {β : Type} {key : String} {v : β} :
    ∀ {l : List (String × β)}, l.lookup key = some v → (key, v) ∈ l := by
  intro l
  induction l with
  | nil => intro h; simp [List.lookup] at h
  | cons e rest ih =>
    rcases e with ⟨k, w⟩
    intro h
    by_cases hk : key = k
    · subst hk
      simp only [List.lookup, beq_self_eq_true] at h
      simp only [Option.some.injEq] at h
      subst h
      exact List.mem_cons_self _ _
    · simp only [List.lookup, beq_eq_false_iff_ne.mpr hk] at h
      exact List.mem_cons_of_mem _ (ih h)

/-- In an association list with pairwise distinct keys, two members
sharing a key are the same entry. -/
theorem entry_unique_of_nodup_keys {β : Type} :
    ∀ {l : List (String × β)}, (l.map Prod.fst).Nodup →
    ∀ {e f : String × β}, e ∈ l → f ∈ l → e.1 = f.1 → e = f := by
  intro l
  induction l with
  | nil => intro _ e f he; simp at he
  | cons c rest ih =>
    intro hnd e f he hf hk
    rw [List.map_cons, List.nodup_cons] at hnd
    obtain ⟨hc, hnd2⟩ := hnd
    rcases List.mem_cons.mp he with he1 | he2
    · rcases List.mem_cons.mp hf with hf1 | hf2
      · rw [he1, hf1]
      · exfalso
        apply hc
        rw [he1] at hk
        rw [hk]
        exact List.mem_map_of_mem Prod.fst hf2
    · rcases List.mem_cons.mp hf with hf1 | hf2
      · exfalso
        apply hc
        rw [hf1] at hk
        rw [← hk]
        exact List.mem_map_of_mem Prod.fst he2
      · exact ih hnd2 he2 hf2 hk

/-- Lookup into a filtered association list with pairwise distinct keys:
the entry is found exactly when the original lookup finds it and it
passes the filter. -/
theorem lookup_filter_of_nodup {β : Type} (q : String × β → Bool) (key : String) :
    ∀ (l : List (String × β)), (l.map Prod.fst).Nodup →
    (l.filter q).lookup key =
      (match l.lookup key with
        | some v => if q (key, v) then some v else none
        | none => none) := by
  intro l
  induction l with
  | nil => intro _; rfl
  | cons c rest ih =>
    intro hnd
    rcases c with ⟨k, v⟩
    rw [List.map_cons, List.nodup_cons] at hnd
    obtain ⟨hknotin, hnd2⟩ := hnd
    by_cases hk : key = k
    · subst hk
      by_cases hq : q (key, v)
      · rw [List.filter_cons_of_pos hq]
        simp [List.lookup, hq]
      · rw [List.filter_cons_of_neg (by simpa using hq)]
        have hnone : (rest.filter q).lookup key = none := by
          apply lookup_eq_none_of_not_mem_keys
          intro hmem
          apply hknotin
          obtain ⟨e, he, hfst⟩ := List.mem_map.mp hmem
          exact List.mem_map.mpr ⟨e, (List.mem_filter.mp he).1, hfst⟩
        simp [List.lookup, hq, hnone]
    · have hbeq : (key == k) = false := beq_eq_false_iff_ne.mpr hk
      by_cases hq : q (k, v)
      · rw [List.filter_cons_of_pos hq]
        simp only [List.lookup, hbeq]
        exact ih hnd2
      · rw [List.filter_cons_of_neg (by simpa using hq)]
        simp only [List.lookup, hbeq]
        exact ih hnd2

/-- Splitting a list by a decidable predicate splits its length. -/
theorem length_filter_add_length_filter_not {β : Type} (p : β → Prop)
    [DecidablePred p] (l : List β) :
    (l.filter (fun e => decide (p e))).length
      + (l.filter (fun e => decide (¬ p e))).length = l.length := by
  induction l with
  | nil => rfl
  | cons c rest ih =>
    by_cases h : p c
    · rw [List.filter_cons_of_pos (by simpa using h),
        List.filter_cons_of_neg (by simpa using h)]
      simp only [List.length_cons]
      omega
    · rw [List.filter_cons_of_neg (by simpa using h),
        List.filter_cons_of_pos (by simpa using h)]
      simp only [List.length_cons]
      omega

/-- One apply_rate_limit call preserves the limiter invariant: if every
logged instant is at most the current clock and at most
MAX_REQUESTS_PER_MINUTE of them lie in the trailing window, the same
holds after a call at any later instant, and the clock never moves
backwards. -/
theorem rate_limit_step (now n : ℚ) (log : List ℚ) (hmono : now ≤ n)
    (hle : ∀ t ∈ log, t ≤ now)
    (hcount : countInWindow now log ≤ MAX_REQUESTS_PER_MINUTE) :
    n ≤ (apply_rate_limit n log).1 ∧
    (∀ t ∈ (apply_rate_limit n log).2, t ≤ (apply_rate_limit n log).1) ∧
    countInWindow (apply_rate_limit n log).1 (apply_rate_limit n log).2
      ≤ MAX_REQUESTS_PER_MINUTE := by
  have hpm : countInWindow n log ≤ countInWindow now log := by
    apply List.countP_mono_left
    intro t _ hp
    simp only [decide_eq_true_eq] at hp ⊢
    linarith
  have hplen : (log.filter (fun t => decide (n - t < 60))).length
      = countInWindow n log := by
    simp [countInWindow, List.countP_eq_length_filter]
  simp only [apply_rate_limit]
  split_ifs with h1 h2
  · -- at quota, positive wait
    have hne : log.filter (fun t => decide (n - t < 60)) ≠ [] := by
      intro h0
      rw [h0] at h1
      simp [MAX_REQUESTS_PER_MINUTE] at h1
    have holdmem := listMin_mem _ hne
    obtain ⟨hinlog, hinwin⟩ := by
      have := List.mem_filter.mp holdmem
      simpa using this
    refine ⟨by linarith, ?_, ?_⟩
    · intro t ht
      dsimp only at ht ⊢
      rcases List.mem_append.mp ht with htp | hts
      · have := (List.mem_filter.mp htp).1
        have := hle t this
        linarith
      · simp only [List.mem_singleton] at hts
        exact le_of_eq hts
    · have hlen : (log.filter (fun t => decide (n - t < 60))).length
          = MAX_REQUESTS_PER_MINUTE :=
        le_antisymm (hplen ▸ (hpm.trans hcount)) h1
      simp only [countInWindow, List.countP_append]
      have hsingle : List.countP
          (fun t => decide (n + (60 - (n - listMin (log.filter (fun t => decide (n - t < 60)))) + 1 / 10) - t < 60))
          [n + (60 - (n - listMin (log.filter (fun t => decide (n - t < 60)))) + 1 / 10)] = 1 := by
        simp
      rw [hsingle]
      have hsplit := List.length_eq_countP_add_countP
        (fun t => decide (n + (60 - (n - listMin (log.filter (fun t => decide (n - t < 60)))) + 1 / 10) - t < 60))
        (log.filter (fun t => decide (n - t < 60)))
      have hpos : 0 < List.countP
          (fun t => decide ¬(decide (n + (60 - (n - listMin (log.filter (fun t => decide (n - t < 60)))) + 1 / 10) - t < 60) = true))
          (log.filter (fun t => decide (n - t < 60))) := by
        rw [List.countP_pos_iff]
        refine ⟨listMin (log.filter (fun t => decide (n - t < 60))), holdmem, ?_⟩
        simp only [decide_eq_true_eq]
        intro habs
        linarith
      rw [hlen] at hsplit
      simp only [MAX_REQUESTS_PER_MINUTE] at hsplit hpos ⊢
      omega
  · -- at quota but nonpositive wait: impossible, the oldest kept
    -- timestamp is inside the window
    exfalso
    have hne : log.filter (fun t => decide (n - t < 60)) ≠ [] := by
      intro h0
      rw [h0] at h1
      simp [MAX_REQUESTS_PER_MINUTE] at h1
    have holdmem := listMin_mem _ hne
    obtain ⟨hinlog, hinwin⟩ := by
      have := List.mem_filter.mp holdmem
      simpa using this
    apply h2
    linarith
  · -- under quota: no wait, append the current instant
    refine ⟨le_refl n, ?_, ?_⟩
    · intro t ht
      rcases List.mem_append.mp ht with htp | hts
      · have := (List.mem_filter.mp htp).1
        have := hle t this
        linarith
      · simp at hts
        rw [hts]
    · simp only [countInWindow, List.countP_append]
      have hsingle : List.countP (fun t => decide (n - t < 60)) [n] = 1 := by
        simp
      rw [hsingle]
      have hc := List.countP_le_length
        (p := fun t => decide (n - t < 60))
        (l := log.filter (fun t => decide (n - t < 60)))
      have h1lt : (log.filter (fun t => decide (n - t < 60))).length
          < MAX_REQUESTS_PER_MINUTE := by omega
      simp only [MAX_REQUESTS_PER_MINUTE] at h1lt ⊢
      omega

/-- A run of sequential rate-limited calls preserves the limiter
invariant. -/
theorem run_preserves_invariant (delays : List ℚ) :
    ∀ (s : ℚ × List ℚ), (∀ t ∈ s.2, t ≤ s.1) →
    countInWindow s.1 s.2 ≤ MAX_REQUESTS_PER_MINUTE →
    (∀ d ∈ delays, 0 ≤ d) →
    (∀ t ∈ (run_rate_limited_calls s delays).2,
      t ≤ (run_rate_limited_calls s delays).1) ∧
    countInWindow (run_rate_limited_calls s delays).1
      (run_rate_limited_calls s delays).2 ≤ MAX_REQUESTS_PER_MINUTE := by
  induction delays with
  | nil => intro s h1 h2 _; exact ⟨h1, h2⟩
  | cons d rest ih =>
    intro s h1 h2 hd
    have hd0 : 0 ≤ d := hd d (List.mem_cons_self _ _)
    have hstep := rate_limit_step s.1 (s.1 + d) s.2 (by linarith) h1 h2
    have hrun : run_rate_limited_calls s (d :: rest)
        = run_rate_limited_calls (apply_rate_limit (s.1 + d) s.2) rest := rfl
    rw [hrun]
    exact ih (apply_rate_limit (s.1 + d) s.2) hstep.2.1 hstep.2.2
      (fun x hx => hd x (List.mem_cons_of_mem _ hx))

/-- C2: classification of an HTTP failure response by status code.
Status 429 yields the RateLimited branch whose message advises using an
API key or reducing the request rate; status 404 yields the NotFound
branch whose message states the resource does not exist; every status
at least 500 yields the UpstreamServerError branch whose message
advises retrying later; every other status yields the TransportError
branch whose message carries the status code and the response body
text. -/
theorem C2_http_status_classification (s : ℕ) (t : String) :
    (s = 429 → classify (.httpStatus s t)
      = ⟨.RateLimited,
         "Rate limit exceeded. Consider using an API key for more requests."⟩) ∧
    (s = 404 → classify (.httpStatus s t)
      = ⟨.NotFound, "Not found. The requested resource doesn\x27t exist."⟩) ∧
    (500 ≤ s → classify (.httpStatus s t)
      = ⟨.UpstreamServerError,
         "OpenDota API server error. Please try again later."⟩) ∧
    (s ≠ 429 → s ≠ 404 → s < 500 → classify (.httpStatus s t)
      = ⟨.TransportError, "HTTP error " ++ toString s ++ ": " ++ t⟩) := by
  refine ⟨?_, ?_, ?_, ?_⟩
  · rintro rfl
    rfl
  · rintro rfl
    rfl
  · intro h
    have h1 : s ≠ 429 := by omega
    have h2 : s ≠ 404 := by omega
    simp [classify, h1, h2, h]
  · intro h1 h2 h3
    have h4 : ¬ 500 ≤ s := by omega
    simp [classify, h1, h2, h4]

/-- Witness for C2: the four status classes at concrete statuses
429, 404, 503 and 418. -/
theorem C2_witness :
    classify (.httpStatus 429 "body")
      = ⟨.RateLimited,
         "Rate limit exceeded. Consider using an API key for more requests."⟩ ∧
    classify (.httpStatus 404 "body")
      = ⟨.NotFound, "Not found. The requested resource doesn\x27t exist."⟩ ∧
    classify (.httpStatus 503 "body")
      = ⟨.UpstreamServerError,
         "OpenDota API server error. Please try again later."⟩ ∧
    classify (.httpStatus 418 "teapot")
      = ⟨.TransportError, "HTTP error " ++ toString 418 ++ ": " ++ "teapot"⟩ :=
  ⟨(C2_http_status_classification 429 "body").1 rfl,
   (C2_http_status_classification 404 "body").2.1 rfl,
   (C2_http_status_classification 503 "body").2.2.1 (by omega),
   (C2_http_status_classification 418 "teapot").2.2.2
     (by omega) (by omega) (by omega)⟩

/-- Counterexample for C3 as stated: a connection failure with no HTTP
status is handled by the final catch-all branch of the dispatcher,
whose kind is Unknown, not TransportError, and whose message wraps the
concrete failure description instead of being a fixed generic one. -/
theorem C3_counterexample :
    classify (.exc "Connection refused")
      = ⟨ErrorKind.Unknown, "Unexpected error: Connection refused"⟩ ∧
    (classify (.exc "Connection refused")).kind ≠ ErrorKind.TransportError := by
  exact ⟨rfl, by decide⟩

/-- C3 (amended): every failure with no HTTP status - connection
failure, timeout, or unparseable JSON body - is caught by the same
catch-all branch as unanticipated faults and returned as a classified
error whose kind is Unknown and whose message is the fixed prefix
"Unexpected error: " followed by the original failure description. -/
theorem C3_no_status_failure_classification (m : String) :
    classify (.exc m) = ⟨ErrorKind.Unknown, "Unexpected error: " ++ m⟩ := rfl

/-- C5: the cache read returns the stored payload exactly when an entry
for the key exists and its age is strictly below CACHE_TTL; moreover a
put at t0 is a hit at t0 + CACHE_TTL - eps and a miss at
t0 + CACHE_TTL + eps, for every positive eps. -/
theorem C5_cache_freshness {α : Type} (cache : List (String × ℚ × α))
    (key : String) (now t0 eps : ℚ) (d : α) (heps : 0 < eps) :
    (cache_get now cache key = some d ↔
      ∃ ts, cache.lookup key = some (ts, d) ∧ now - ts < CACHE_TTL) ∧
    cache_get (t0 + CACHE_TTL - eps) (cache_put key t0 d cache) key = some d ∧
    cache_get (t0 + CACHE_TTL + eps) (cache_put key t0 d cache) key = none := by
  refine ⟨?_, ?_, ?_⟩
  · unfold cache_get
    cases h : cache.lookup key with
    | none => simp
    | some v =>
      rcases v with ⟨ts0, d0⟩
      dsimp only
      split_ifs with hf
      · constructor
        · intro hsome
          simp only [Option.some.injEq] at hsome
          exact ⟨ts0, by rw [hsome], hf⟩
        · intro ⟨ts, hts, _⟩
          simp only [Option.some.injEq, Prod.mk.injEq] at hts
          rw [hts.2]
      · constructor
        · intro habs
          simp at habs
        · intro ⟨ts, hts, hfresh⟩
          simp only [Option.some.injEq, Prod.mk.injEq] at hts
          rw [← hts.1] at hfresh
          exact absurd hfresh hf
  · unfold cache_get cache_put
    simp only [List.lookup, beq_self_eq_true]
    rw [if_pos (by linarith)]
  · unfold cache_get cache_put
    simp only [List.lookup, beq_self_eq_true]
    rw [if_neg (by linarith)]

/-- Witness for C5: the concrete scenario of the specification with
TTL = 300: a payload stored for players/1 at t = 0 is a hit at t = 299
and a miss at t = 301 (eps = 1). -/
theorem C5_witness :
    (0:ℚ) < 1 ∧
    ((cache_get 299 [("players/1", (0:ℚ), (10:ℕ))] "players/1" = some 10 ↔
      ∃ ts, [("players/1", (0:ℚ), (10:ℕ))].lookup "players/1" = some (ts, 10)
        ∧ 299 - ts < CACHE_TTL) ∧
    cache_get (0 + CACHE_TTL - 1) (cache_put "players/1" 0 10 [("players/1", (0:ℚ), (10:ℕ))]) "players/1" = some 10 ∧
    cache_get (0 + CACHE_TTL + 1) (cache_put "players/1" 0 10 [("players/1", (0:ℚ), (10:ℕ))]) "players/1" = none) :=
  ⟨by norm_num,
   C5_cache_freshness [("players/1", (0:ℚ), (10:ℕ))] "players/1" 299 0 1 10 (by norm_num)⟩

/-- C8: the cache key is insensitive to parameter order: two parameter
lists holding the same key/value pairs in any order produce the same
cache key, because the pairs are sorted before the key string is
built. -/
theorem C8_cache_key_order_independent (endpoint : String)
    (A B : List (String × String)) (h : A.Perm B) :
    get_cache_key endpoint A = get_cache_key endpoint B := by
  have hsort : A.insertionSort paramLE = B.insertionSort paramLE :=
    List.eq_of_perm_of_sorted
      ((List.perm_insertionSort paramLE A).trans
        (h.trans (List.perm_insertionSort paramLE B).symm))
      (List.sorted_insertionSort paramLE A)
      (List.sorted_insertionSort paramLE B)
  cases A with
  | nil =>
    have hB : B = [] := h.symm.eq_nil
    rw [hB]
  | cons a as =>
    cases B with
    | nil =>
      have := h.length_eq
      simp at this
    | cons b bs =>
      simp only [get_cache_key]
      rw [hsort]

/-- Witness for C8: the same two pairs in the two possible orders give
the same key. -/
theorem C8_witness :
    ([(("b":String), ("2":String)), ("a", "1")]).Perm [("a", "1"), ("b", "2")] ∧
    get_cache_key "players/1/matches" [("b", "2"), ("a", "1")]
      = get_cache_key "players/1/matches" [("a", "1"), ("b", "2")] :=
  ⟨List.Perm.swap _ _ _,
   C8_cache_key_order_independent "players/1/matches" _ _ (List.Perm.swap _ _ _)⟩

/-- C10: the cache key derivation is not injective: an endpoint and two
distinct parameter mappings (one exploiting the separator characters in
a value) produce the same key, so two logically different requests
share one cache entry. -/
theorem C10_cache_key_not_injective :
    ∃ (endpoint : String) (A B : List (String × String)),
      A ≠ B ∧ get_cache_key endpoint A = get_cache_key endpoint B :=
  ⟨"matches", [("a", "1=b")], [("a=1", "b")], by decide, by decide⟩

/-- Counterexample for C1 as stated: a call whose cache key has a fresh
entry does return the cached payload, but the rate limiter timestamp
log does not stay unchanged: the dispatcher runs apply_rate_limit
before the cache lookup, so the initially empty log has gained a
timestamp after the cache hit. -/
theorem C1_counterexample :
    (make_opendota_request (α := ℕ) "players/1" [] []
      (Except.error (.exc "boom")) 0 100
      ⟨[], [("players/1", 0, 10)]⟩).result = Except.ok 10 ∧
    (make_opendota_request (α := ℕ) "players/1" [] []
      (Except.error (.exc "boom")) 0 100
      ⟨[], [("players/1", 0, 10)]⟩).state.request_timestamps = [100] ∧
    ([(100:ℚ)] : List ℚ) ≠ [] := by
  refine ⟨?_, ?_, by simp⟩
  · simp [make_opendota_request, apply_rate_limit, updateDict, get_cache_key,
      cache_get, List.lookup, MAX_REQUESTS_PER_MINUTE, CACHE_TTL]
    norm_num
  · simp [make_opendota_request, apply_rate_limit, updateDict, get_cache_key,
      cache_get, List.lookup, MAX_REQUESTS_PER_MINUTE, CACHE_TTL]
    norm_num

/-- C1 (amended): the rate limiter runs first on every call, cache hit
or not. When the cache holds a fresh entry for the derived key, the
dispatcher returns the cached payload, leaves the cache unchanged and
performs no network call (the outcome does not depend on the network
oracle or on the network elapsed time), but the timestamp log is still
the one produced by apply_rate_limit, with the new timestamp
appended - so every call of a sequence of identical cache-hit calls
touches the limiter. -/
theorem C1_cache_hit_still_touches_limiter {α : Type} (endpoint : String)
    (params apiParams : List (String × String))
    (net net2 : Except Failure α) (nd nd2 now : ℚ) (st : ServerState α) (d : α)
    (hhit : cache_get (apply_rate_limit now st.request_timestamps).1 st.api_cache
      (get_cache_key endpoint (updateDict apiParams params)) = some d) :
    (make_opendota_request endpoint params apiParams net nd now st).result
      = Except.ok d ∧
    (make_opendota_request endpoint params apiParams net nd now st).state.api_cache
      = st.api_cache ∧
    (make_opendota_request endpoint params apiParams net nd now st).state.request_timestamps
      = (apply_rate_limit now st.request_timestamps).2 ∧
    make_opendota_request endpoint params apiParams net nd now st
      = make_opendota_request endpoint params apiParams net2 nd2 now st := by
  refine ⟨?_, ?_, ?_, ?_⟩ <;>
    simp only [make_opendota_request] <;>
    rw [hhit]

/-- Witness for C1 (amended): the concrete cache-hit call of the
counterexample, through the amended theorem. -/
theorem C1_witness :
    cache_get (apply_rate_limit 100 ([] : List ℚ)).1
      [("players/1", (0:ℚ), (10:ℕ))]
      (get_cache_key "players/1" (updateDict [] [])) = some 10 ∧
    ((make_opendota_request (α := ℕ) "players/1" [] []
        (Except.ok 7) 5 100 ⟨[], [("players/1", 0, 10)]⟩).result = Except.ok 10 ∧
     (make_opendota_request (α := ℕ) "players/1" [] []
        (Except.ok 7) 5 100 ⟨[], [("players/1", 0, 10)]⟩).state.api_cache
        = [("players/1", (0:ℚ), (10:ℕ))] ∧
     (make_opendota_request (α := ℕ) "players/1" [] []
        (Except.ok 7) 5 100 ⟨[], [("players/1", 0, 10)]⟩).state.request_timestamps
        = (apply_rate_limit 100 ([] : List ℚ)).2 ∧
     make_opendota_request (α := ℕ) "players/1" [] []
        (Except.ok 7) 5 100 ⟨[], [("players/1", 0, 10)]⟩
        = make_opendota_request (α := ℕ) "players/1" [] []
            (Except.error (.exc "boom2")) 0 100 ⟨[], [("players/1", 0, 10)]⟩) := by
  have hhit : cache_get (apply_rate_limit 100 ([] : List ℚ)).1
      [("players/1", (0:ℚ), (10:ℕ))]
      (get_cache_key "players/1" (updateDict [] [])) = some 10 := by
    simp [apply_rate_limit, updateDict, get_cache_key, cache_get, List.lookup,
      MAX_REQUESTS_PER_MINUTE, CACHE_TTL]
    norm_num
  exact ⟨hhit,
    C1_cache_hit_still_touches_limiter "players/1" [] [] (Except.ok 7)
      (Except.error (.exc "boom2")) 5 0 100 ⟨[], [("players/1", 0, 10)]⟩ 10 hhit⟩

/-- C4: a call that ends in a classified error leaves the cache exactly
as it was: only the success branch of the dispatcher writes to the
cache. -/
theorem C4_failures_never_cached {α : Type} (endpoint : String)
    (params apiParams : List (String × String)) (net : Except Failure α)
    (nd now : ℚ) (st : ServerState α) (e : ClassifiedError)
    (he : (make_opendota_request endpoint params apiParams net nd now st).result
      = Except.error e) :
    (make_opendota_request endpoint params apiParams net nd now st).state.api_cache
      = st.api_cache := by
  simp only [make_opendota_request] at he ⊢
  cases hc : cache_get (apply_rate_limit now st.request_timestamps).1 st.api_cache
      (get_cache_key endpoint (updateDict apiParams params)) with
  | some d => simp [hc] at he
  | none =>
    cases net with
    | ok d => simp [hc] at he
    | error f => rfl

/-- Witness for C4: a concrete 404 failure on a miss leaves the
(nonempty) cache as it was. -/
theorem C4_witness :
    (make_opendota_request (α := ℕ) "players/1" [] []
      (Except.error (.httpStatus 404 "nf")) 0 100
      ⟨[], [("heroes", 0, 5)]⟩).result
      = Except.error ⟨.NotFound, "Not found. The requested resource doesn\x27t exist."⟩ ∧
    (make_opendota_request (α := ℕ) "players/1" [] []
      (Except.error (.httpStatus 404 "nf")) 0 100
      ⟨[], [("heroes", 0, 5)]⟩).state.api_cache = [("heroes", (0:ℚ), (5:ℕ))] := by
  have he : (make_opendota_request (α := ℕ) "players/1" [] []
      (Except.error (.httpStatus 404 "nf")) 0 100
      ⟨[], [("heroes", 0, 5)]⟩).result
      = Except.error ⟨.NotFound, "Not found. The requested resource doesn\x27t exist."⟩ := by
    simp [make_opendota_request, apply_rate_limit, updateDict, get_cache_key,
      cache_get, List.lookup, classify, MAX_REQUESTS_PER_MINUTE, CACHE_TTL]
  exact ⟨he,
    C4_failures_never_cached "players/1" [] [] (Except.error (.httpStatus 404 "nf"))
      0 100 ⟨[], [("heroes", 0, 5)]⟩
      ⟨.NotFound, "Not found. The requested resource doesn\x27t exist."⟩ he⟩

/-- Counterexample for C9 as stated: an unanticipated internal fault
raised during the network call (here a TypeError) does not propagate:
the catch-all handler absorbs it and the dispatcher returns it as a
normal error-result value. -/
theorem C9_counterexample :
    (make_opendota_request (α := ℕ) "players/1" [] []
      (Except.error (.exc "TypeError: NoneType object is not subscriptable"))
      0 100 ⟨[], []⟩).result
      = Except.error ⟨ErrorKind.Unknown,
          "Unexpected error: TypeError: NoneType object is not subscriptable"⟩ := by
  simp [make_opendota_request, apply_rate_limit, updateDict, get_cache_key,
    cache_get, List.lookup, classify, MAX_REQUESTS_PER_MINUTE, CACHE_TTL]

/-- C9 (amended): every exception raised inside the try block of the
network call - anticipated or not - is absorbed by the catch-all
handler: on a cache miss the dispatcher returns the error-result value
whose message is the fixed prefix "Unexpected error: " followed by the
fault description, instead of letting the fault propagate. -/
theorem C9_internal_faults_absorbed {α : Type} (endpoint : String)
    (params apiParams : List (String × String)) (m : String)
    (nd now : ℚ) (st : ServerState α)
    (hmiss : cache_get (apply_rate_limit now st.request_timestamps).1 st.api_cache
      (get_cache_key endpoint (updateDict apiParams params)) = none) :
    (make_opendota_request endpoint params apiParams
        (Except.error (.exc m)) nd now st).result
      = Except.error ⟨ErrorKind.Unknown, "Unexpected error: " ++ m⟩ := by
  simp only [make_opendota_request]
  rw [hmiss]
  rfl

/-- Witness for C9 (amended): a concrete internal fault on a miss is
returned as an error-result value. -/
theorem C9_witness :
    cache_get (apply_rate_limit 100 ([] : List ℚ)).1 ([] : List (String × ℚ × ℕ))
      (get_cache_key "players/1" (updateDict [] [])) = none ∧
    (make_opendota_request (α := ℕ) "players/1" [] []
      (Except.error (.exc "KeyError: profile")) 0 100 ⟨[], []⟩).result
      = Except.error ⟨ErrorKind.Unknown, "Unexpected error: KeyError: profile"⟩ := by
  have hmiss : cache_get (apply_rate_limit 100 ([] : List ℚ)).1
      ([] : List (String × ℚ × ℕ))
      (get_cache_key "players/1" (updateDict [] [])) = none := by
    simp [cache_get, List.lookup]
  exact ⟨hmiss,
    C9_internal_faults_absorbed "players/1" [] [] "KeyError: profile" 0 100
      ⟨[], []⟩ hmiss⟩

/-- C6: the cleanup sweep removes exactly the entries whose age is at
least CACHE_TTL: an entry survives the sweep exactly when it is fresh,
the reported count is the number of expired entries (survivors plus
removed account for the whole cache), and reads through cache_get are
unaffected by the sweep. Keys are pairwise distinct, as they are in the
Python dict. -/
theorem C6_cleanup_cache_sweeps_expired {α : Type} (now : ℚ)
    (cache : List (String × ℚ × α)) (hnd : (cache.map Prod.fst).Nodup) :
    (∀ e, e ∈ (cleanup_cache now cache).1 ↔ e ∈ cache ∧ now - e.2.1 < CACHE_TTL) ∧
    (cleanup_cache now cache).2
      = (cache.filter (fun e => decide (CACHE_TTL ≤ now - e.2.1))).length ∧
    (cleanup_cache now cache).1.length + (cleanup_cache now cache).2 = cache.length ∧
    (∀ key, cache_get now (cleanup_cache now cache).1 key = cache_get now cache key) := by
  have hkey : ∀ e ∈ cache,
      (e.1 ∈ (cache.filter (fun e => decide (CACHE_TTL ≤ now - e.2.1))).map Prod.fst
        ↔ CACHE_TTL ≤ now - e.2.1) := by
    intro e he
    constructor
    · intro hmem
      obtain ⟨f, hf, hfst⟩ := List.mem_map.mp hmem
      obtain ⟨hfc, hfx⟩ := List.mem_filter.mp hf
      have hef : e = f := entry_unique_of_nodup_keys hnd he hfc hfst.symm
      rw [hef]
      simpa using hfx
    · intro hex
      exact List.mem_map.mpr ⟨e, List.mem_filter.mpr ⟨he, by simpa using hex⟩, rfl⟩
  refine ⟨?_, ?_, ?_, ?_⟩
  · intro e
    simp only [cleanup_cache]
    constructor
    · intro hmem
      obtain ⟨hec, hnotin⟩ := List.mem_filter.mp hmem
      refine ⟨hec, ?_⟩
      by_contra hstale
      push_neg at hstale
      have hni : e.1 ∉ (cache.filter (fun e => decide (CACHE_TTL ≤ now - e.2.1))).map Prod.fst := by
        simpa using hnotin
      exact hni ((hkey e hec).mpr hstale)
    · intro ⟨hec, hfresh⟩
      refine List.mem_filter.mpr ⟨hec, ?_⟩
      simp only [decide_eq_true_eq]
      intro hin
      exact absurd ((hkey e hec).mp hin) (by linarith)
  · simp [cleanup_cache]
  · simp only [cleanup_cache]
    have hcongr : cache.filter
        (fun e => decide (e.1 ∉ (cache.filter (fun e => decide (CACHE_TTL ≤ now - e.2.1))).map Prod.fst))
        = cache.filter (fun e => decide (¬ CACHE_TTL ≤ now - e.2.1)) := by
      apply List.filter_congr
      intro e he
      have := hkey e he
      simp only [decide_eq_decide]
      constructor
      · intro hni
        intro hx
        exact hni (this.mpr hx)
      · intro hnx hin
        exact hnx (this.mp hin)
    rw [hcongr, List.length_map]
    have := length_filter_add_length_filter_not (fun e => CACHE_TTL ≤ now - e.2.1) cache
    omega
  · intro key
    simp only [cleanup_cache]
    unfold cache_get
    rw [lookup_filter_of_nodup
      (fun e => decide (e.1 ∉ (cache.filter (fun e => decide (CACHE_TTL ≤ now - e.2.1))).map Prod.fst))
      key cache hnd]
    cases h : cache.lookup key with
    | none => rfl
    | some v =>
      rcases v with ⟨ts, dd⟩
      have hmem := mem_of_lookup_eq_some h
      have hk := hkey (key, ts, dd) hmem
      dsimp only
      by_cases hstale : CACHE_TTL ≤ now - ts
      · have hq : ¬ ((key, ts, dd).1
            ∉ (cache.filter (fun e => decide (CACHE_TTL ≤ now - e.2.1))).map Prod.fst) :=
          fun hni => hni (hk.mpr hstale)
        rw [if_neg (by simpa using hq)]
        rw [if_neg (by linarith)]
      · have hq : (key, ts, dd).1
            ∉ (cache.filter (fun e => decide (CACHE_TTL ≤ now - e.2.1))).map Prod.fst :=
          fun hin => hstale (hk.mp hin)
        rw [if_pos (by simpa using hq)]

/-- Witness for C6: a two-entry cache at time 301 with one expired
entry: the sweep removes exactly that entry, reports one removal, and
the fresh entry remains retrievable. -/
theorem C6_witness :
    (([("a", (0:ℚ), (1:ℕ)), ("b", 100, 2)].map Prod.fst).Nodup) ∧
    ((("b":String), (100:ℚ), (2:ℕ)) ∈ (cleanup_cache 301 [("a", (0:ℚ), (1:ℕ)), ("b", 100, 2)]).1 ↔
      (("b":String), (100:ℚ), (2:ℕ)) ∈ [("a", (0:ℚ), (1:ℕ)), ("b", 100, 2)]
        ∧ 301 - ((("b":String), (100:ℚ), (2:ℕ))).2.1 < CACHE_TTL) ∧
    (cache_get 301 (cleanup_cache 301 [("a", (0:ℚ), (1:ℕ)), ("b", 100, 2)]).1 "b"
      = cache_get 301 [("a", (0:ℚ), (1:ℕ)), ("b", 100, 2)] "b") := by
  have hnd : (([("a", (0:ℚ), (1:ℕ)), ("b", 100, 2)].map Prod.fst).Nodup) := by
    simp
  have h := C6_cleanup_cache_sweeps_expired 301 [("a", (0:ℚ), (1:ℕ)), ("b", 100, 2)] hnd
  exact ⟨hnd, h.1 _, h.2.2.2 "b"⟩

/-- C7: over any sequence of sequential rate-limited calls starting
from an empty timestamp log, with nonnegative inter-arrival delays, the
number of logged timestamps inside the trailing 60-second window after
the final call is at most MAX_REQUESTS_PER_MINUTE; since every prefix
of such a sequence is again such a sequence, the bound holds after each
call. -/
theorem C7_rate_limiter_window_invariant (start : ℚ) (delays : List ℚ)
    (hd : ∀ d ∈ delays, 0 ≤ d) :
    countInWindow (run_rate_limited_calls (start, []) delays).1
      (run_rate_limited_calls (start, []) delays).2 ≤ MAX_REQUESTS_PER_MINUTE := by
  have h := run_preserves_invariant delays (start, [])
    (by intro t ht; simp at ht)
    (by simp [countInWindow])
    hd
  exact h.2

/-- Witness for C7: three calls at delays 1 and 2 from start 5 keep the
in-window count within the quota. -/
theorem C7_witness :
    (∀ d ∈ ([1, 2] : List ℚ), 0 ≤ d) ∧
    countInWindow (run_rate_limited_calls ((5:ℚ), []) [1, 2]).1
      (run_rate_limited_calls ((5:ℚ), []) [1, 2]).2 ≤ MAX_REQUESTS_PER_MINUTE := by
  have hd : ∀ d ∈ ([1, 2] : List ℚ), 0 ≤ d := by
    intro d hdm
    rcases List.mem_cons.mp hdm with rfl | hdm2
    · norm_num
    · rcases List.mem_cons.mp hdm2 with rfl | hdm3
      · norm_num
      · simp at hdm3
  exact ⟨hd, C7_rate_limiter_window_invariant 5 [1, 2] hd⟩

end OpenDota
